import Mathlib

/-!
Verification of the binary-clock firmware (`binarieClock.c`).

The development shallowly embeds the program's data and operations:

* `ledPairs` is the constant 11-entry table of (bit mask, pin pattern) pairs.
* `encodeWord` is the body of `updateSeq()` once the packed time word has been
  computed: it clears the 11-byte sequence (`memset`), and, when the word is
  nonzero, runs the compacting fill loop over the table.
* `packedTime` is the expression `(hours << 6) ^ minutes` (C `^` is xor),
  truncated to `uint16_t` as the assignment to `time` does.
* `ClockState` carries the global variables `hours`, `minutes`, `seconds`
  (all `uint8_t`, so increments are taken mod 256), `bouncer`, `sleep`
  (C `int`, only ever 0 or incremented, modelled as `Nat`) and `ledSeq`.
* `timeSetter`, `tick` embed `timeSetter()` and `ISR(TIMER1_OVF_vect)`;
  the extra `Bool` records whether `updateSeq()` ran during the call.
* `pressHours`, `pressMinutes`, `pressWake` embed the three branches of
  `ISR(PCINT_vect)`, each for an edge where the corresponding pin reads low.
* `mainIter` embeds one pass of the `while(true)` loop in `main()`: either the
  sleep branch (`bouncer = 10; PORTA = 0x01; sleep_mode()`) or the active
  branch (`bouncer++` and the multiplexer scan of `ledSeq` up to the first
  zero entry).  `ports` lists the successive writes to `PORTA`, `slept`
  records whether `sleep_mode()` was invoked.
-/

/-- The constant table `ledPairs` from the source: 11 pairs of
(`bin` bit mask, `ledPins` output pattern), rows D0 .. D10. -/
def ledPairs : List (Nat × Nat) :=
  [ (0b00000000001, 0b00000011),
    (0b00000000010, 0b01111101),
    (0b00000000100, 0b00000101),
    (0b00000001000, 0b01111011),
    (0b00000010000, 0b00001001),
    (0b00000100000, 0b01110111),
    (0b00001000000, 0b00100001),
    (0b00010000000, 0b01011111),
    (0b00100000000, 0b01000001),
    (0b01000000000, 0b00111111),
    (0b10000000000, 0b10000001) ]

/-- `time = (hours << 6) ^ minutes;` — `hours` is promoted to `int`
(16 bit on AVR, no overflow for `hours ≤ 255`), xor-ed with `minutes`, and the
result is stored into the `uint16_t` variable `time` (the `% 65536` cast is
lossless whenever `hours < 256`). -/
def packedTime (hours minutes : Nat) : Nat :=
  ((hours <<< 6) ^^^ minutes) % 65536

/-- The fill loop of `updateSeq()`: iterate over the table (`i` walks the 11
entries); whenever `bin & time` is nonzero, store `ledPins` at `arrayInd` and
increment `arrayInd`.  `List.set` is the write `ledSeq[arrayInd] = ...`. -/
def fillLoop (time : Nat) : List (Nat × Nat) → Nat → List Nat → List Nat
  | [], _, seq => seq
  | p :: rest, arrayInd, seq =>
    if p.1 &&& time ≠ 0 then
      fillLoop time rest (arrayInd + 1) (seq.set arrayInd p.2)
    else
      fillLoop time rest arrayInd seq

/-- `updateSeq()` with the packed word as input: `memset(ledSeq, 0, 11)`,
then, only `if (time > 0)`, the fill loop starting at `arrayInd = 0`. -/
def encodeWord (time : Nat) : List Nat :=
  if time > 0 then
    fillLoop time ledPairs 0 (List.replicate 11 0)
  else
    List.replicate 11 0

/-- The global mutable state of the program.  `hours`, `minutes`, `seconds`
are `uint8_t`; `bouncer` and `sleep` are C `int`s that the program only resets
to small constants or increments, modelled as `Nat`; `ledSeq` is the 11-byte
display sequence. -/
structure ClockState where
  hours : Nat
  minutes : Nat
  seconds : Nat
  bouncer : Nat
  sleep : Nat
  ledSeq : List Nat
  deriving Repr, DecidableEq

/-- The state right after `setup()`: `hours = 3`, `minutes = 16`,
`seconds = 0`, `bouncer = 0`, `sleep = 0`, and `updateSeq()` has run once. -/
def initialState : ClockState :=
  { hours := 3, minutes := 16, seconds := 0, bouncer := 0, sleep := 0,
    ledSeq := encodeWord (packedTime 3 16) }

/-- `timeSetter()`.  The three `if`s run in this fixed order; the returned
`Bool` is `true` iff the first branch (seconds rollover) called
`updateSeq()`.  `updateSeq()` runs after `minutes++`, so it reads the
incremented minutes (possibly 60) and the still-unchanged hours. -/
def timeSetter (s : ClockState) : ClockState × Bool :=
  let r :=
    if s.seconds == 60 then
      let m := (s.minutes + 1) % 256
      ({ s with seconds := 0, minutes := m,
                ledSeq := encodeWord (packedTime s.hours m) }, true)
    else (s, false)
  let s2 :=
    if r.1.minutes == 60 then
      { r.1 with minutes := 0, hours := (r.1.hours + 1) % 256 }
    else r.1
  let s3 := if s2.hours ≥ 24 then { s2 with hours := 0 } else s2
  (s3, r.2)

/-- `ISR(TIMER1_OVF_vect)`: `seconds++; timeSetter(); sleep++;`.
The `Bool` reports whether the display sequence was rebuilt. -/
def tick (s : ClockState) : ClockState × Bool :=
  let s1 := { s with seconds := (s.seconds + 1) % 256 }
  let r := timeSetter s1
  ({ r.1 with sleep := r.1.sleep + 1 }, r.2)

/-- `n` consecutive timer ticks; the `Nat` counts how many of them rebuilt
the display sequence (how many times `updateSeq()` ran). -/
def ticks : Nat → ClockState → ClockState × Nat
  | 0, s => (s, 0)
  | n + 1, s =>
    let r := tick s
    let r2 := ticks n r.1
    (r2.1, (if r.2 then 1 else 0) + r2.2)

/-- The PinA0 branch of `ISR(PCINT_vect)` (hours button edge, pin reads low):
`if (bouncer >= 10) { hours++; bouncer = 0; updateSeq(); }`.
`updateSeq()` reads the already incremented hours. -/
def pressHours (s : ClockState) : ClockState :=
  if s.bouncer ≥ 10 then
    let h := (s.hours + 1) % 256
    { s with hours := h, bouncer := 0,
             ledSeq := encodeWord (packedTime h s.minutes) }
  else s

/-- The PinB6 branch of `ISR(PCINT_vect)` (minutes button edge):
`if (bouncer >= 10) { minutes++; bouncer = 0; updateSeq(); }`. -/
def pressMinutes (s : ClockState) : ClockState :=
  if s.bouncer ≥ 10 then
    let m := (s.minutes + 1) % 256
    { s with minutes := m, bouncer := 0,
             ledSeq := encodeWord (packedTime s.hours m) }
  else s

/-- The PinB3 branch of `ISR(PCINT_vect)` (wake button edge):
`if (bouncer >= 10) { sleep = 0; bouncer = 0; }`. -/
def pressWake (s : ClockState) : ClockState :=
  if s.bouncer ≥ 10 then
    { s with sleep := 0, bouncer := 0 }
  else s

/-- Result of one pass of the main loop: the new state, the successive values
written to `PORTA` during the pass, and whether `sleep_mode()` was invoked. -/
structure IterResult where
  state : ClockState
  ports : List Nat
  slept : Bool
  deriving Repr, DecidableEq

/-- One iteration of `while(true)` in `main()`.  If `sleep >= 25`:
`bouncer = 10; PORTA = 0x01; sleep_mode();`.  Otherwise `bouncer++` and the
multiplexer writes each entry of `ledSeq` to `PORTA` while it is nonzero
(`while (ledSeq[i] != 0)`). -/
def mainIter (s : ClockState) : IterResult :=
  if s.sleep ≥ 25 then
    { state := { s with bouncer := 10 }, ports := [0x01], slept := true }
  else
    let s1 := { s with bouncer := s.bouncer + 1 }
    { state := s1, ports := s1.ledSeq.takeWhile (· ≠ 0), slept := false }

/-- The display patterns the spec's table scan produces for a word: the
`ledPins` of exactly those table entries whose bit is set in the word, in
table order. -/
def scanPatterns (time : Nat) : List Nat :=
  (ledPairs.filter (fun p => p.1 &&& time ≠ 0)).map Prod.snd

/-! ### Structure of the encoder output -/

/-- Writing at position `front.length` of `front ++ tail` writes at the head
of `tail`. -/
theorem set_append_len (front tail : List Nat) (v : Nat) :
    (front ++ tail).set front.length v = front ++ tail.set 0 v := by
  induction front with
  | nil => rfl
  | cons a front ih => simp [List.set, ih]

/-- Dropping from a replicated list leaves a replicated list. -/
theorem drop_replicate (n k : Nat) :
    (List.replicate n (0 : Nat)).drop k = List.replicate (n - k) 0 := by
  induction n generalizing k with
  | zero => simp
  | succ n ih =>
    cases k with
    | zero => rfl
    | succ k => simp [ih k]

/-- The fill loop, run over any table with `arrayInd` pointing just past a
`front` prefix it never touches, appends exactly the patterns of the entries
whose bit is set, in table order, consuming the `tail` buffer. -/
theorem fillLoop_spec (table : List (Nat × Nat)) (time : Nat) :
    ∀ front tail : List Nat,
      ((table.filter (fun p => p.1 &&& time ≠ 0)).map Prod.snd).length ≤ tail.length →
      fillLoop time table front.length (front ++ tail) =
        front ++ ((table.filter (fun p => p.1 &&& time ≠ 0)).map Prod.snd)
              ++ tail.drop ((table.filter (fun p => p.1 &&& time ≠ 0)).map Prod.snd).length := by
  induction table with
  | nil => intro front tail _; simp [fillLoop]
  | cons p rest ih =>
    intro front tail hlen
    by_cases hp : p.1 &&& time ≠ 0
    · cases tail with
      | nil => simp [hp, List.filter_cons] at hlen
      | cons t0 ts =>
        have hstep : fillLoop time (p :: rest) front.length (front ++ t0 :: ts) =
            fillLoop time rest ((front ++ [p.2]).length) ((front ++ [p.2]) ++ ts) := by
          simp [fillLoop, hp, set_append_len, List.set]
        rw [hstep, ih (front ++ [p.2]) ts]
        · simp [List.filter_cons, hp]
        · have := hlen
          simp [List.filter_cons, hp] at this ⊢
          omega
    · have hstep : fillLoop time (p :: rest) front.length (front ++ tail) =
          fillLoop time rest front.length (front ++ tail) := by
        simp [fillLoop, hp]
      rw [hstep, ih front tail]
      · simp [List.filter_cons, hp]
      · simpa [List.filter_cons, hp] using hlen

/-- `encodeWord` is the table scan: the patterns of the set bits in table
order, padded with zero sentinels to the 11-byte array length. -/
theorem encodeWord_eq (time : Nat) :
    encodeWord time =
      scanPatterns time ++ List.replicate (11 - (scanPatterns time).length) 0 := by
  by_cases h : time > 0
  · have hlen : (scanPatterns time).length ≤ 11 := by
      have := List.length_filter_le (fun p => p.1 &&& time ≠ 0) ledPairs
      simpa [scanPatterns] using this
    have := fillLoop_spec ledPairs time [] (List.replicate 11 0)
      (by simpa [scanPatterns] using hlen)
    simp only [List.length_nil, List.nil_append, List.length_replicate] at this
    unfold encodeWord
    rw [if_pos h, this, drop_replicate]
    rfl
  · have ht : time = 0 := by omega
    subst ht
    have hscan : scanPatterns 0 = [] := by decide
    simp [encodeWord, hscan]

/-- Every pattern the scan selects is a nonzero byte (every `ledPins` entry
of the table is nonzero). -/
theorem scanPatterns_ne_zero (time : Nat) :
    ∀ x ∈ scanPatterns time, x ≠ 0 := by
  have htable : ∀ p ∈ ledPairs, p.2 ≠ 0 := by decide
  intro x hx
  rcases List.mem_map.1 hx with ⟨p, hp, rfl⟩
  exact htable p (List.mem_filter.1 hp).1

/-- The multiplexer scan of a pattern block followed by zero padding stops
exactly at the end of the pattern block. -/
theorem takeWhile_pad (pats : List Nat) (k : Nat) (h : ∀ x ∈ pats, x ≠ 0) :
    (pats ++ List.replicate k 0).takeWhile (fun x => x ≠ 0) = pats := by
  induction pats with
  | nil =>
    cases k with
    | zero => rfl
    | succ k => simp [List.takeWhile_cons]
  | cons a pats ih =>
    have ha : a ≠ 0 := h a (List.mem_cons_self a pats)
    rw [List.cons_append, List.takeWhile_cons, if_pos (by simpa using ha),
      ih (fun x hx => h x (List.mem_cons_of_mem a hx))]

/-! ### Behavior of the timer tick -/

/-- A quiet tick: when the incoming seconds do not reach 60, the tick only
advances `seconds` and `sleep`; no rollover branch fires and the display
sequence is not rebuilt. -/
theorem tick_quiet (s : ClockState) (h59 : s.seconds + 1 < 60)
    (hm : s.minutes ≤ 59) (hh : s.hours ≤ 23) :
    tick s = ({ s with seconds := s.seconds + 1, sleep := s.sleep + 1 }, false) := by
  have hmod : (s.seconds + 1) % 256 = s.seconds + 1 := Nat.mod_eq_of_lt (by omega)
  have h1 : ((s.seconds + 1) == 60) = false := by
    simp only [beq_eq_false_iff_ne, ne_eq]; omega
  have h2 : (s.minutes == 60) = false := by
    simp only [beq_eq_false_iff_ne, ne_eq]; omega
  have h3 : ¬ s.hours ≥ 24 := by omega
  simp [tick, timeSetter, hmod, h1, h2, h3]

/-- Splitting a run of ticks: `a + b` ticks are `a` ticks followed by `b`
ticks, and the rebuild counts add. -/
theorem ticks_add (a b : Nat) (s : ClockState) :
    ticks (a + b) s =
      ((ticks b (ticks a s).1).1, (ticks a s).2 + (ticks b (ticks a s).1).2) := by
  induction a generalizing s with
  | zero => simp [ticks]
  | succ a ih =>
    have hab : a + 1 + b = (a + b) + 1 := by omega
    rw [hab]
    simp only [ticks, ih (tick s).1]
    simp [Nat.add_assoc]

/-- The rollover tick: when the incoming seconds are 59, the tick zeroes
`seconds`, increments the minute (wrapping, with the hour carried and
wrapped), rebuilds the display sequence — reading the old hours and the
incremented minutes, i.e. the value 60 when the minute wraps — and reports
the rebuild. -/
theorem tick_rollover (s : ClockState) (h59 : s.seconds = 59)
    (hm : s.minutes ≤ 59) (hh : s.hours ≤ 23) :
    tick s =
      ({ s with
          seconds := 0,
          minutes := (s.minutes + 1) % 60,
          hours := if s.minutes = 59 then (s.hours + 1) % 24 else s.hours,
          sleep := s.sleep + 1,
          ledSeq := encodeWord (packedTime s.hours (s.minutes + 1)) }, true) := by
  obtain ⟨h, m, sec, b, sl, seq⟩ := s
  simp only at h59 hm hh
  subst h59
  have hmod : (m + 1) % 256 = m + 1 := Nat.mod_eq_of_lt (by omega)
  by_cases hm59 : m = 59
  · subst hm59
    have hmod24 : (h + 1) % 256 = h + 1 := Nat.mod_eq_of_lt (by omega)
    by_cases hh23 : h = 23
    · subst hh23
      simp [tick, timeSetter]
    · have h1 : ¬ (h + 1) % 256 ≥ 24 := by omega
      have h2 : (h + 1) % 24 = h + 1 := Nat.mod_eq_of_lt (by omega)
      have h3 : ¬ 23 ≤ h := by omega
      simp [tick, timeSetter, hmod24, h1, h2, h3]
  · have h1 : ((m + 1) % 256 == 60) = false := by
      simp only [hmod, beq_eq_false_iff_ne, ne_eq]; omega
    have h2 : (m + 1) % 60 = m + 1 := Nat.mod_eq_of_lt (by omega)
    have h3 : ¬ h ≥ 24 := by omega
    simp [tick, timeSetter, hmod, h1, h2, h3, hm59]

/-- A run of ticks that never reaches a minute boundary only accumulates
seconds and sleep, and performs no display rebuild at all. -/
theorem ticks_quiet (n : Nat) (s : ClockState) (hn : s.seconds + n ≤ 59)
    (hm : s.minutes ≤ 59) (hh : s.hours ≤ 23) :
    ticks n s = ({ s with seconds := s.seconds + n, sleep := s.sleep + n }, 0) := by
  induction n generalizing s with
  | zero =>
    obtain ⟨h, m, sec, b, sl, seq⟩ := s
    simp [ticks]
  | succ n ih =>
    have hq := tick_quiet s (by omega) hm hh
    have hstep := ih ({ s with seconds := s.seconds + 1, sleep := s.sleep + 1 })
      (by simp; omega) (by simpa) (by simpa)
    obtain ⟨h, m, sec, b, sl, seq⟩ := s
    have e1 : sec + (n + 1) = sec + 1 + n := by omega
    have e2 : sl + (n + 1) = sl + 1 + n := by omega
    simp only [ticks, hq, hstep, e1, e2]
    simp

/-! ### Finite key facts, checked by evaluation -/

/-- On the valid ranges, the xor in `(hours << 6) ^ minutes` coincides with a
bitwise or, the word fits in 11 bits, and the two fields are recovered by the
bit slices 0–5 and 6–10. -/
theorem packedTime_key : ∀ h < 24, ∀ m < 60,
    packedTime h m = ((h <<< 6) ||| m) ∧ packedTime h m < 2048 ∧
    packedTime h m % 64 = m ∧ packedTime h m / 64 = h := by decide

/-- A valid time never sets more than 9 of the 11 word bits. -/
theorem scanPatterns_valid_key : ∀ h < 24, ∀ m < 60,
    (scanPatterns (packedTime h m)).length ≤ 9 := by decide

/-- Every 11-bit word except 2047 misses at least one table bit. -/
theorem scan_len_lt_key : ∀ hi < 32, ∀ lo < 64,
    hi * 64 + lo = 2047 ∨ (scanPatterns (hi * 64 + lo)).length < 11 := by decide

/-- A word below 2048 other than 2047 selects fewer than 11 patterns. -/
theorem scan_len_lt (w : Nat) (hw : w < 2048) (hne : w ≠ 2047) :
    (scanPatterns w).length < 11 := by
  have h1 : w / 64 < 32 := by omega
  have h2 : w % 64 < 64 := by omega
  have h3 : w / 64 * 64 + w % 64 = w := by omega
  rcases scan_len_lt_key (w / 64) h1 (w % 64) h2 with h | h
  · exact absurd (h3 ▸ h) hne
  · exact h3 ▸ h

/-- A sentinel zero sits right after the pattern block whenever the padding
is nonempty. -/
theorem pad_sentinel (pats : List Nat) (k : Nat) (hk : 1 ≤ k) :
    (pats ++ List.replicate k (0 : Nat))[pats.length]? = some 0 := by
  rw [List.getElem?_append_right (Nat.le_refl _), Nat.sub_self]
  cases k with
  | zero => omega
  | succ k => simp [List.replicate_succ]

/-- After a tick, all three time fields are in range, even from a state where
a pending manual hour adjustment had left `hours = 24`. -/
theorem tick_range (s : ClockState) (hh : s.hours ≤ 24) (hm : s.minutes ≤ 59)
    (hs : s.seconds ≤ 59) :
    (tick s).1.hours ≤ 23 ∧ (tick s).1.minutes ≤ 59 ∧ (tick s).1.seconds ≤ 59 := by
  obtain ⟨h, m, sec, b, sl, seq⟩ := s
  simp only at hh hm hs
  have hsec : (sec + 1) % 256 = sec + 1 := Nat.mod_eq_of_lt (by omega)
  have hmm : (m + 1) % 256 = m + 1 := Nat.mod_eq_of_lt (by omega)
  have hhh : (h + 1) % 256 = h + 1 := Nat.mod_eq_of_lt (by omega)
  simp only [tick, timeSetter, hsec, hmm, hhh, beq_iff_eq]
  split_ifs <;> simp_all <;> omega

/-! ### Claim theorems -/

/-- C3 (amended): for every word in 0..2047 other than 2047, the encoder
produces exactly the `outputPattern`s of the table entries whose bit is set
in the word, scanned in ascending bitPosition order, followed by a
terminating zero sentinel (the remainder of the 11-byte array is zero
padding); in particular `encode 208` yields
`[0b00001001, 0b00100001, 0b01011111]` and then the sentinel.  At word 2047
itself all 11 cells are patterns and no sentinel follows (see the
counterexample). -/
theorem C3_encode_table_scan (w : Nat) (hw : w < 2048) (hne : w ≠ 2047) :
    encodeWord w =
      scanPatterns w ++ List.replicate (11 - (scanPatterns w).length) 0 ∧
    (scanPatterns w).length < 11 ∧
    (encodeWord w)[(scanPatterns w).length]? = some 0 ∧
    encodeWord 208 =
      [0b00001001, 0b00100001, 0b01011111, 0, 0, 0, 0, 0, 0, 0, 0] := by
  have hlt := scan_len_lt w hw hne
  refine ⟨encodeWord_eq w, hlt, ?_, by decide⟩
  rw [encodeWord_eq w]
  exact pad_sentinel _ _ (by omega)

/-- Witness for C3 at the concrete word 208. -/
theorem C3_encode_table_scan_witness :
    encodeWord 208 =
      scanPatterns 208 ++ List.replicate (11 - (scanPatterns 208).length) 0 ∧
    (encodeWord 208)[(scanPatterns 208).length]? = some 0 :=
  ⟨(C3_encode_table_scan 208 (by decide) (by decide)).1,
   (C3_encode_table_scan 208 (by decide) (by decide)).2.2.1⟩

/-- C3 counterexample: at word 2047 (a value the claim quantifies over) all
11 cells of the rebuilt sequence hold output patterns and no zero sentinel
follows them anywhere in the array. -/
theorem C3_counterexample :
    encodeWord 2047 =
      [0b00000011, 0b01111101, 0b00000101, 0b01111011, 0b00001001,
       0b01110111, 0b00100001, 0b01011111, 0b01000001, 0b00111111,
       0b10000001] ∧
    ¬ (0 ∈ encodeWord 2047) := by decide

/-- C4: encoding word 0 (time 00:00) produces the empty display sequence:
nothing but zero sentinels, no output pattern at all. -/
theorem C4_encode_zero_empty :
    packedTime 0 0 = 0 ∧ encodeWord (packedTime 0 0) = List.replicate 11 0 ∧
    scanPatterns 0 = [] := by decide

/-- C5 (amended): encoding word 1 (time 00:01) produces the single pattern of
the bitPosition-0 table entry, `0b00000011`, followed by the sentinel — not
the bitPosition-1 pattern `0b01111101` that the claim names. -/
theorem C5_encode_one :
    packedTime 0 1 = 1 ∧
    encodeWord 1 = [0b00000011, 0, 0, 0, 0, 0, 0, 0, 0, 0, 0] ∧
    scanPatterns 1 = [0b00000011] := by decide

/-- C5 counterexample: `encode 1` does not start with `0b01111101`; its only
pattern is `0b00000011`. -/
theorem C5_counterexample :
    encodeWord 1 ≠ [0b01111101, 0, 0, 0, 0, 0, 0, 0, 0, 0, 0] ∧
    (encodeWord 1)[0]? = some 0b00000011 := by decide

/-- C6: for hours in 0..23 and minutes in 0..59, the packed word the encoder
computes — `(hours << 6) ^ minutes` — coincides with the specified
`(hours << 6) | minutes`, is an 11-bit value, and carries minutes in bits
0–5 and hours in bits 6–10. -/
theorem C6_packed_word (h m : Nat) (hh : h ≤ 23) (hm : m ≤ 59) :
    packedTime h m = ((h <<< 6) ||| m) ∧ packedTime h m < 2048 ∧
    packedTime h m % 64 = m ∧ packedTime h m / 64 = h :=
  packedTime_key h (by omega) m (by omega)

/-- Witness for C6 at the startup time 03:16. -/
theorem C6_packed_word_witness :
    packedTime 3 16 = ((3 <<< 6) ||| 16) ∧ packedTime 3 16 < 2048 ∧
    packedTime 3 16 % 64 = 16 ∧ packedTime 3 16 / 64 = 3 :=
  C6_packed_word 3 16 (by decide) (by decide)

/-- A validated hours press: increment (mod 256), reset the counter, rebuild
the sequence from the incremented hours. -/
theorem pressHours_eq (s : ClockState) (hb : 10 ≤ s.bouncer) :
    pressHours s =
      { s with
          hours := (s.hours + 1) % 256,
          bouncer := 0,
          ledSeq := encodeWord (packedTime ((s.hours + 1) % 256) s.minutes) } := by
  simp [pressHours, hb]

/-- An hours edge with the counter below threshold changes nothing. -/
theorem pressHours_skip (s : ClockState) (hb : s.bouncer < 10) :
    pressHours s = s := by
  simp [pressHours, show ¬ s.bouncer ≥ 10 from by omega]

/-- A validated minutes press: increment (mod 256), reset the counter,
rebuild the sequence from the incremented minutes. -/
theorem pressMinutes_eq (s : ClockState) (hb : 10 ≤ s.bouncer) :
    pressMinutes s =
      { s with
          minutes := (s.minutes + 1) % 256,
          bouncer := 0,
          ledSeq := encodeWord (packedTime s.hours ((s.minutes + 1) % 256)) } := by
  simp [pressMinutes, hb]

/-- A minutes edge with the counter below threshold changes nothing. -/
theorem pressMinutes_skip (s : ClockState) (hb : s.bouncer < 10) :
    pressMinutes s = s := by
  simp [pressMinutes, show ¬ s.bouncer ≥ 10 from by omega]

/-- A validated wake press resets the sleep timer and the counter. -/
theorem pressWake_eq (s : ClockState) (hb : 10 ≤ s.bouncer) :
    pressWake s = { s with sleep := 0, bouncer := 0 } := by
  simp [pressWake, hb]

/-- A wake edge with the counter below threshold changes nothing. -/
theorem pressWake_skip (s : ClockState) (hb : s.bouncer < 10) :
    pressWake s = s := by
  simp [pressWake, show ¬ s.bouncer ≥ 10 from by omega]

/-- When the incoming tick is not a seconds rollover, the outgoing minutes
are below 60 — even from a state where a manual press left `minutes = 60`. -/
theorem tick_minutes_le (s : ClockState) (hm : s.minutes ≤ 60)
    (hs : s.seconds + 1 < 60) :
    (tick s).1.minutes ≤ 59 := by
  obtain ⟨h, m, sec, b, sl, seq⟩ := s
  simp only at hm hs
  have hsec : (sec + 1) % 256 = sec + 1 := Nat.mod_eq_of_lt (by omega)
  simp only [tick, timeSetter, hsec, beq_iff_eq]
  split_ifs <;> simp_all <;> omega

/-- C1 (amended): from a state with all fields in range, a tick leaves all
three fields in range, but a manual adjustment does not: a validated hours
press can leave `hours = 24` and a validated minutes press can leave
`minutes = 60` (each observed by the encoder, see the counterexample), and
these persist until normalized — the tick after an hours press restores
`hours ≤ 23` unconditionally, the tick after a minutes press restores
`minutes ≤ 59` provided that tick is not itself a seconds rollover. -/
theorem C1_field_ranges (s : ClockState) (hh : s.hours ≤ 23) (hm : s.minutes ≤ 59)
    (hs : s.seconds ≤ 59) :
    ((tick s).1.hours ≤ 23 ∧ (tick s).1.minutes ≤ 59 ∧ (tick s).1.seconds ≤ 59) ∧
    ((pressHours s).hours ≤ 24 ∧ (pressHours s).minutes ≤ 59 ∧
      (pressHours s).seconds ≤ 59) ∧
    ((pressMinutes s).minutes ≤ 60 ∧ (pressMinutes s).hours ≤ 23 ∧
      (pressMinutes s).seconds ≤ 59) ∧
    (tick (pressHours s)).1.hours ≤ 23 ∧
    (s.seconds ≤ 58 → (tick (pressMinutes s)).1.minutes ≤ 59) := by
  have hph : (pressHours s).hours ≤ 24 ∧ (pressHours s).minutes = s.minutes ∧
      (pressHours s).seconds = s.seconds := by
    by_cases hb : 10 ≤ s.bouncer
    · rw [pressHours_eq s hb]
      refine ⟨?_, rfl, rfl⟩
      show (s.hours + 1) % 256 ≤ 24
      omega
    · rw [pressHours_skip s (by omega)]
      exact ⟨by omega, rfl, rfl⟩
  have hpm : (pressMinutes s).minutes ≤ 60 ∧ (pressMinutes s).hours = s.hours ∧
      (pressMinutes s).seconds = s.seconds := by
    by_cases hb : 10 ≤ s.bouncer
    · rw [pressMinutes_eq s hb]
      refine ⟨?_, rfl, rfl⟩
      show (s.minutes + 1) % 256 ≤ 60
      omega
    · rw [pressMinutes_skip s (by omega)]
      exact ⟨by omega, rfl, rfl⟩
  refine ⟨tick_range s (by omega) hm hs, ⟨hph.1, ?_, ?_⟩, ⟨hpm.1, ?_, ?_⟩, ?_, ?_⟩
  · rw [hph.2.1]; exact hm
  · rw [hph.2.2]; exact hs
  · rw [hpm.2.1]; exact hh
  · rw [hpm.2.2]; exact hs
  · exact (tick_range (pressHours s) hph.1 (by rw [hph.2.1]; exact hm)
      (by rw [hph.2.2]; exact hs)).1
  · intro h58
    exact tick_minutes_le (pressMinutes s) hpm.1 (by rw [hpm.2.2]; omega)

/-- Witness for C1 at the startup state. -/
theorem C1_field_ranges_witness :
    (tick initialState).1.hours ≤ 23 ∧ (tick initialState).1.minutes ≤ 59 ∧
    (tick initialState).1.seconds ≤ 59 :=
  (C1_field_ranges initialState (by decide) (by decide) (by decide)).1

/-- C1 counterexample: a validated hours press at 23:16 completes with
`hours = 24`, out of range, and the encoder rebuilds the sequence from the
out-of-range value; a validated minutes press at :59 completes with
`minutes = 60`; and the minute-rollover tick itself hands `minutes = 60` to
the encoder. -/
theorem C1_counterexample :
    (pressHours ⟨23, 16, 0, 10, 0, List.replicate 11 0⟩).hours = 24 ∧
    ¬ (pressHours ⟨23, 16, 0, 10, 0, List.replicate 11 0⟩).hours ≤ 23 ∧
    (pressHours ⟨23, 16, 0, 10, 0, List.replicate 11 0⟩).ledSeq
        = encodeWord (packedTime 24 16) ∧
    (pressMinutes ⟨3, 59, 0, 10, 0, List.replicate 11 0⟩).minutes = 60 ∧
    (tick ⟨3, 59, 59, 0, 0, List.replicate 11 0⟩).1.ledSeq
        = encodeWord (packedTime 3 60) := by decide

/-- C2 (amended): on a validated press from an in-range state, the hours
(minutes) field is incremented by exactly one — without wrapping at 24 (60):
pressing at `hours = 23` yields 24 and pressing at `minutes = 59` yields 60,
with the wrap deferred to `timeSetter` on a later tick — the display sequence
is re-encoded from the new value, and `seconds` is untouched. -/
theorem C2_adjust_increments (s : ClockState) (hb : 10 ≤ s.bouncer)
    (hh : s.hours ≤ 23) (hm : s.minutes ≤ 59) :
    pressHours s =
      { s with
          hours := s.hours + 1,
          bouncer := 0,
          ledSeq := encodeWord (packedTime (s.hours + 1) s.minutes) } ∧
    pressMinutes s =
      { s with
          minutes := s.minutes + 1,
          bouncer := 0,
          ledSeq := encodeWord (packedTime s.hours (s.minutes + 1)) } ∧
    (pressHours s).seconds = s.seconds ∧ (pressMinutes s).seconds = s.seconds := by
  have h1 : (s.hours + 1) % 256 = s.hours + 1 := Nat.mod_eq_of_lt (by omega)
  have h2 : (s.minutes + 1) % 256 = s.minutes + 1 := Nat.mod_eq_of_lt (by omega)
  rw [pressHours_eq s hb, pressMinutes_eq s hb, h1, h2]
  exact ⟨rfl, rfl, rfl, rfl⟩

/-- Witness for C2 at the startup time with an elapsed debounce window. -/
theorem C2_adjust_increments_witness :
    pressHours ⟨3, 16, 0, 10, 0, []⟩ =
      ⟨4, 16, 0, 0, 0, encodeWord (packedTime 4 16)⟩ :=
  ((C2_adjust_increments ⟨3, 16, 0, 10, 0, []⟩ (by decide) (by decide)
      (by decide)).1).trans (by decide)

/-- C2 counterexample: the adjustments do not wrap at 24 / 60 — a validated
hours press at 23 gives 24 (not 0) and a validated minutes press at 59 gives
60 (not 0). -/
theorem C2_counterexample :
    (pressHours ⟨23, 0, 0, 10, 0, []⟩).hours = 24 ∧
    (pressHours ⟨23, 0, 0, 10, 0, []⟩).hours ≠ 0 ∧
    (pressMinutes ⟨0, 59, 0, 10, 0, []⟩).minutes = 60 ∧
    (pressMinutes ⟨0, 59, 0, 10, 0, []⟩).minutes ≠ 0 := by decide

/-- C7: a button edge with `bouncer >= 10` performs its action exactly once —
hours increment plus re-encode, minutes increment plus re-encode, or sleep
timer reset — and resets the counter to 0; an edge with `bouncer < 10` has no
effect at all: no action, no counter reset. -/
theorem C7_debounce_gate (s : ClockState) :
    (10 ≤ s.bouncer →
      pressHours s =
        { s with
            hours := (s.hours + 1) % 256,
            bouncer := 0,
            ledSeq := encodeWord (packedTime ((s.hours + 1) % 256) s.minutes) } ∧
      pressMinutes s =
        { s with
            minutes := (s.minutes + 1) % 256,
            bouncer := 0,
            ledSeq := encodeWord (packedTime s.hours ((s.minutes + 1) % 256)) } ∧
      pressWake s = { s with sleep := 0, bouncer := 0 }) ∧
    (s.bouncer < 10 →
      pressHours s = s ∧ pressMinutes s = s ∧ pressWake s = s) := by
  constructor
  · intro hb
    exact ⟨pressHours_eq s hb, pressMinutes_eq s hb, pressWake_eq s hb⟩
  · intro hb
    exact ⟨pressHours_skip s hb, pressMinutes_skip s hb, pressWake_skip s hb⟩

/-- Witness for C7: an armed wake press fires and resets, an unarmed hours
press is ignored. -/
theorem C7_debounce_gate_witness :
    pressWake ⟨3, 16, 0, 10, 7, []⟩ =
      { (⟨3, 16, 0, 10, 7, []⟩ : ClockState) with sleep := 0, bouncer := 0 } ∧
    pressHours ⟨3, 16, 0, 9, 7, []⟩ = ⟨3, 16, 0, 9, 7, []⟩ :=
  ⟨((C7_debounce_gate ⟨3, 16, 0, 10, 7, []⟩).1 (by decide)).2.2,
   ((C7_debounce_gate ⟨3, 16, 0, 9, 7, []⟩).2 (by decide)).1⟩

/-- One tick unfolded from a run of length one. -/
theorem ticks_one (s : ClockState) :
    ticks 1 s = ((tick s).1, if (tick s).2 then 1 else 0) := rfl

/-- C8: the display sequence is rebuilt exactly when the minute rolls over in
a tick or a validated manual adjustment fires: a tick that does not reach 60
seconds changes only `seconds` and `sleep` and performs no rebuild; starting
from `seconds = 0`, the first 59 ticks perform no rebuild at all and 60 ticks
perform exactly one rebuild and exactly one minute increment, with `seconds`
back at 0; and a validated press always rebuilds. -/
theorem C8_reencode_on_rollover (s : ClockState) (hh : s.hours ≤ 23)
    (hm : s.minutes ≤ 59) :
    (s.seconds + 1 < 60 →
      tick s = ({ s with seconds := s.seconds + 1, sleep := s.sleep + 1 }, false)) ∧
    (s.seconds = 0 →
      (ticks 59 s).2 = 0 ∧
      (ticks 60 s).2 = 1 ∧
      (ticks 60 s).1.seconds = 0 ∧
      (ticks 60 s).1.minutes = (s.minutes + 1) % 60 ∧
      (ticks 60 s).1.hours = (if s.minutes = 59 then (s.hours + 1) % 24 else s.hours)) ∧
    (10 ≤ s.bouncer →
      (pressHours s).ledSeq = encodeWord (packedTime ((s.hours + 1) % 256) s.minutes) ∧
      (pressMinutes s).ledSeq = encodeWord (packedTime s.hours ((s.minutes + 1) % 256))) := by
  refine ⟨fun hlt => tick_quiet s hlt hm hh, fun hs0 => ?_, fun hb => ?_⟩
  · have h59 := ticks_quiet 59 s (by omega) hm hh
    have hroll := tick_rollover { s with seconds := s.seconds + 59, sleep := s.sleep + 59 }
      (by show s.seconds + 59 = 59; omega) hm hh
    have hsplit := ticks_add 59 1 s
    norm_num at hsplit
    rw [h59] at hsplit
    simp only [ticks_one, hroll] at hsplit
    refine ⟨by simp [h59], ?_, ?_, ?_, ?_⟩
    all_goals rw [hsplit]
    all_goals simp
  · rw [pressHours_eq s hb, pressMinutes_eq s hb]
    exact ⟨rfl, rfl⟩

/-- Witness for C8: one full minute from the startup state. -/
theorem C8_reencode_on_rollover_witness :
    (ticks 59 initialState).2 = 0 ∧ (ticks 60 initialState).2 = 1 ∧
    (ticks 60 initialState).1.seconds = 0 ∧
    (ticks 60 initialState).1.minutes = (initialState.minutes + 1) % 60 :=
  ⟨((C8_reencode_on_rollover initialState (by decide) (by decide)).2.1 rfl).1,
   ((C8_reencode_on_rollover initialState (by decide) (by decide)).2.1 rfl).2.1,
   ((C8_reencode_on_rollover initialState (by decide) (by decide)).2.1 rfl).2.2.1,
   ((C8_reencode_on_rollover initialState (by decide) (by decide)).2.1 rfl).2.2.2.1⟩

/-- C9: when the main loop sees `sleep >= 25` it arms the debounce counter at
the threshold value 10, writes `0x01` (wake-pin bit 0 high, all LEDs off) to
the output port, and invokes the low-power wait; a validated wake press from
the resulting state resets the sleep timer to 0, and the following loop pass
runs the active multiplexer branch instead of sleeping. -/
theorem C9_sleep_transition (s : ClockState) (hsl : 25 ≤ s.sleep) :
    mainIter s = { state := { s with bouncer := 10 }, ports := [0x01], slept := true } ∧
    10 ≤ (mainIter s).state.bouncer ∧
    (pressWake (mainIter s).state).sleep = 0 ∧
    (mainIter (pressWake (mainIter s).state)).slept = false ∧
    (mainIter (pressWake (mainIter s).state)).ports
      = (pressWake (mainIter s).state).ledSeq.takeWhile (fun x => x ≠ 0) := by
  have h1 : mainIter s =
      { state := { s with bouncer := 10 }, ports := [0x01], slept := true } := by
    simp [mainIter, hsl]
  refine ⟨h1, ?_, ?_, ?_, ?_⟩ <;> rw [h1] <;> simp [pressWake, mainIter]

/-- Witness for C9 at a concrete idle state. -/
theorem C9_sleep_transition_witness :
    mainIter ⟨3, 16, 0, 0, 25, List.replicate 11 0⟩ =
      { state := ⟨3, 16, 0, 10, 25, List.replicate 11 0⟩, ports := [1], slept := true } :=
  ((C9_sleep_transition ⟨3, 16, 0, 0, 25, List.replicate 11 0⟩ (by decide)).1).trans
    (by decide)

/-- C10: a valid time selects at most 9 of the 11 table bits, so the rebuilt
11-byte sequence always contains a zero sentinel; the multiplexer scan,
which advances while the entry is nonzero, visits exactly the pattern block
and stops at an index at most 9 — within the array bounds. -/
theorem C10_scan_in_bounds (h m : Nat) (hh : h ≤ 23) (hm : m ≤ 59) :
    (scanPatterns (packedTime h m)).length ≤ 9 ∧
    0 ∈ encodeWord (packedTime h m) ∧
    ((encodeWord (packedTime h m)).takeWhile (fun x => x ≠ 0)).length ≤ 9 ∧
    (encodeWord (packedTime h m)).length = 11 ∧
    (∀ s : ClockState, s.sleep < 25 → s.ledSeq = encodeWord (packedTime h m) →
      (mainIter s).ports = scanPatterns (packedTime h m)) := by
  have h9 := scanPatterns_valid_key h (by omega) m (by omega)
  have henc := encodeWord_eq (packedTime h m)
  have hlen11 : (scanPatterns (packedTime h m)).length ≤ 11 := by omega
  have htw : (encodeWord (packedTime h m)).takeWhile (fun x => x ≠ 0)
      = scanPatterns (packedTime h m) := by
    rw [henc]
    exact takeWhile_pad _ _ (scanPatterns_ne_zero _)
  refine ⟨h9, ?_, ?_, ?_, ?_⟩
  · rw [henc]
    exact List.mem_append.2 (Or.inr (List.mem_replicate.2 ⟨by omega, rfl⟩))
  · rw [htw]; exact h9
  · rw [henc]
    simp only [List.length_append, List.length_replicate]
    omega
  · intro s hsl hseq
    have hneg : ¬ s.sleep ≥ 25 := by omega
    simp only [mainIter, if_neg hneg]
    show s.ledSeq.takeWhile (· ≠ 0) = scanPatterns (packedTime h m)
    rw [hseq]
    exact htw

/-- Witness for C10 at the startup time 03:16. -/
theorem C10_scan_in_bounds_witness :
    0 ∈ encodeWord (packedTime 3 16) ∧
    ((encodeWord (packedTime 3 16)).takeWhile (fun x => x ≠ 0)).length ≤ 9 :=
  ⟨(C10_scan_in_bounds 3 16 (by decide) (by decide)).2.1,
   (C10_scan_in_bounds 3 16 (by decide) (by decide)).2.2.1⟩
